import Mathlib

/-!
Verification of the YouTube content-extraction pipeline of this repository
(`src/unnamed/part_007`, the transcript extractor used by the API routes).

The TypeScript source is shallowly embedded: JS strings become `String` /
`List Char`, JS numbers that carry caption timing become an exact-rational
stand-in `JSNum` (with an explicit NaN constructor; every concrete input
used below has timing values that are exactly representable both as IEEE
doubles and as rationals, so the embedding agrees with the source on them),
thrown JS exceptions become `Except String`, and the `async` facade is
embedded as a function of the awaited results of its two effectful
sub-calls (the metadata fetch, which by its own catch-all never throws, and
the transcript strategy chain).

The five caption regexes of `parseYouTubeCaptionXML` are embedded by a
small backtracking matcher (`matchAtoms`) whose atoms are exactly the
constructs those regexes use: literals, greedy `[^c]*` runs (longest-first
with backtracking, as in the JS engine), capturing runs, and the lazy
`(.*?)` whose dot does not cross line terminators.  The global `exec` loop
becomes `scanPattern`, which finds successive leftmost matches and resumes
after each match.
-/

/-! ## JS whitespace, lowercase and substring helpers -/

/-- Character class of the JS `\s` used by `replace(/\s+/g, ' ')` and
`String.prototype.trim` (the ASCII members plus NBSP and BOM; all inputs
appearing in this development are ASCII). -/
def isJsWs (c : Char) : Bool :=
  c = ' ' || c = '\t' || c = '\n' || c = '\r' || c = '\x0b' || c = '\x0c' ||
  c = ' ' || c = '﻿'

/-- Worker for `collapseWsL`; the flag records whether the scanner is in
the middle of a whitespace run whose single replacement space has already
been emitted. -/
def collapseAux : Bool → List Char → List Char
  | _, [] => []
  | inRun, c :: cs =>
    if isJsWs c then
      if inRun then collapseAux true cs else ' ' :: collapseAux true cs
    else c :: collapseAux false cs

/-- One maximal whitespace run becomes a single space: JS `replace(/\s+/g, ' ')`. -/
def collapseWsL (l : List Char) : List Char := collapseAux false l

/-- JS `String.prototype.trim`. -/
def jsTrimL (l : List Char) : List Char :=
  ((l.dropWhile isJsWs).reverse.dropWhile isJsWs).reverse

def jsTrim (s : String) : String := ⟨jsTrimL s.data⟩

def collapseWs (s : String) : String := ⟨collapseWsL s.data⟩

/-- Literal-prefix matcher: if `pat` is a prefix of `l`, return the rest. -/
def matchLit : List Char → List Char → Option (List Char)
  | [], l => some l
  | _ :: _, [] => none
  | p :: ps, c :: cs => if p = c then matchLit ps cs else none

/-- Fueled worker for `replaceAllL`.  Each step either emits one input
character or consumes a whole (non-empty) occurrence of `pat`, so fuel
equal to the input length always suffices. -/
def replaceAllAux (pat rep : List Char) : Nat → List Char → List Char
  | 0, l => l
  | _ + 1, [] => []
  | fuel + 1, c :: cs =>
    match matchLit pat (c :: cs) with
    | some rest =>
      if pat.isEmpty then c :: replaceAllAux pat rep fuel cs
      else rep ++ replaceAllAux pat rep fuel rest
    | none => c :: replaceAllAux pat rep fuel cs

/-- JS `String.prototype.replace(/pat/g, rep)` for a literal pattern:
leftmost, non-overlapping, the replacement is not rescanned. -/
def replaceAllL (pat rep l : List Char) : List Char :=
  replaceAllAux pat rep l.length l

def replaceAll (s pat rep : String) : String := ⟨replaceAllL pat.data rep.data s.data⟩

/-- JS `String.prototype.includes` (substring test). -/
def containsStrL (l needle : List Char) : Bool :=
  match l with
  | [] => (matchLit needle []).isSome
  | _ :: cs => (matchLit needle l).isSome || containsStrL cs needle

def containsStr (s needle : String) : Bool := containsStrL s.data needle.data

/-- JS `String.prototype.toLowerCase` (ASCII range, as used on the error
messages classified by the chain executor). -/
def jsToLower (s : String) : String := ⟨s.data.map Char.toLower⟩

/-! ## JS numbers -/

/-- Stand-in for the JS numbers that carry caption timing: NaN or the
exact decimal `m / 10 ^ k`.  Every timing value exercised in this
development is a small decimal, exactly representable as an IEEE double,
so the model agrees with the source on all of them; `dec` is kept
unnormalised so that all operations compute by plain integer arithmetic. -/
inductive JSNum where
  | nan : JSNum
  | dec : Int → Nat → JSNum
deriving DecidableEq, Repr

/-- The rational a `JSNum` denotes (NaN denotes nothing). -/
def JSNum.toRat : JSNum → Option ℚ
  | JSNum.nan => none
  | JSNum.dec m k => some ((m : ℚ) / 10 ^ k)

/-- An integer-valued JS number. -/
def JSNum.int (n : Int) : JSNum := JSNum.dec n 0

/-- NaN-propagating multiplication. -/
def jsMul : JSNum → JSNum → JSNum
  | JSNum.dec m₁ k₁, JSNum.dec m₂ k₂ => JSNum.dec (m₁ * m₂) (k₁ + k₂)
  | _, _ => JSNum.nan

/-- JS `<=` on numbers: any comparison against NaN is false. -/
def jsLe : JSNum → JSNum → Bool
  | JSNum.dec m₁ k₁, JSNum.dec m₂ k₂ => decide (m₁ * 10 ^ k₂ ≤ m₂ * 10 ^ k₁)
  | _, _ => false

def digitsToNat (ds : List Char) : Nat :=
  ds.foldl (fun a c => a * 10 + (c.toNat - 48)) 0

/-- JS `parseFloat` restricted to the forms the caption attributes use:
optional leading whitespace, optional sign, decimal digits with an optional
fractional part.  (Exponent forms never occur in the embedded call sites.)
Returns NaN when no digits can be consumed. -/
def parseFloatJS (s : String) : JSNum :=
  let l := s.data.dropWhile isJsWs
  let (neg, l') :=
    match l with
    | '-' :: rest => (true, rest)
    | '+' :: rest => (false, rest)
    | _ => (false, l)
  let intDigits := l'.takeWhile Char.isDigit
  let rest := l'.dropWhile Char.isDigit
  let fracDigits :=
    match rest with
    | '.' :: r => r.takeWhile Char.isDigit
    | _ => []
  if intDigits.isEmpty && fracDigits.isEmpty then JSNum.nan
  else
    let m : Int := digitsToNat (intDigits ++ fracDigits)
    JSNum.dec (if neg then -m else m) fracDigits.length

/-! ## Data model (`src/unnamed/part_007`, lines 4-27) -/

structure VideoMetadata where
  title : String
  author : String
  duration : String
  views : Option String := none
  uploadDate : Option String := none
  description : Option String := none
  thumbnails : Option (List String) := none
deriving DecidableEq, Repr

structure TranscriptSegment where
  text : String
  offset : JSNum
  duration : JSNum
deriving DecidableEq, Repr

structure ExtractedContent where
  videoId : String
  url : String
  metadata : VideoMetadata
  transcript : List TranscriptSegment
  fullTranscript : String
deriving DecidableEq, Repr

/-! ## Identifier resolver (`extractVideoId`, lines 32-46)

The first regex is
`(?:youtube\.com\/watch\?v=|youtu\.be\/|youtube\.com\/embed\/)([^&\n?#]+)`,
an unanchored search whose alternation is tried left to right at each
position; the second is the anchored `^([a-zA-Z0-9_-]{11})$`. -/

def isIdChar (c : Char) : Bool := c.isAlphanum || c = '_' || c = '-'

def isCaptureChar (c : Char) : Bool :=
  !(c = '&' || c = '\n' || c = '?' || c = '#')

def urlMarkers : List (List Char) :=
  ["youtube.com/watch?v=".data, "youtu.be/".data, "youtube.com/embed/".data]

/-- One attempt of regex 1 anchored at the head of `l`: try each
alternative of the non-capturing group in order, then the one-or-more
capture `([^&\n?#]+)` (greedy, nothing follows it, hence maximal munch). -/
def tryAltsAt (l : List Char) : Option (List Char) :=
  urlMarkers.findSome? fun m =>
    (matchLit m l).bind fun rest =>
      let cap := rest.takeWhile isCaptureChar
      if cap.isEmpty then none else some cap

/-- The unanchored search of regex 1 (leftmost match). -/
def searchRegex1 : List Char → Option (List Char)
  | [] => none
  | c :: cs =>
    match tryAltsAt (c :: cs) with
    | some cap => some cap
    | none => searchRegex1 cs

/-- `extractVideoId` (lines 32-46): try regex 1 then the bare-token
regex 2, returning the first capture group of the first regex to match. -/
def extractVideoId (url : String) : Option String :=
  match searchRegex1 url.data with
  | some cap => some ⟨cap⟩
  | none =>
    if url.data.length = 11 && url.data.all isIdChar then some url else none

/-- `isValidYouTubeUrl` (lines 51-53). -/
def isValidYouTubeUrl (url : String) : Bool := (extractVideoId url).isSome

/-! ## Regex engine for the caption patterns -/

/-- The constructs the five caption regexes use. -/
inductive PatAtom where
  /-- a literal run of characters -/
  | lit : List Char → PatAtom
  /-- greedy `[^c]*` without capture -/
  | skip : (Char → Bool) → PatAtom
  /-- greedy capturing `([^c]*)` -/
  | cap : (Char → Bool) → PatAtom
  /-- lazy capturing `(.*?)`; the predicate excludes line terminators -/
  | lazyCap : (Char → Bool) → PatAtom

/-- All splits `(take k, drop k)` with `k` up to the maximal munch of `p`,
longest first (the backtracking order of a greedy star). -/
def greedySplits (p : Char → Bool) (l : List Char) : List (List Char × List Char) :=
  ((List.range ((l.takeWhile p).length + 1)).reverse).map fun k => (l.take k, l.drop k)

/-- Same splits shortest first (the backtracking order of a lazy star). -/
def lazySplits (p : Char → Bool) (l : List Char) : List (List Char × List Char) :=
  (List.range ((l.takeWhile p).length + 1)).map fun k => (l.take k, l.drop k)

/-- Anchored match of an atom list, returning the capture list and the
remaining input; choice points are explored in the JS backtracking order. -/
def matchAtoms : List PatAtom → List Char → Option (List (List Char) × List Char)
  | [], l => some ([], l)
  | PatAtom.lit s :: rest, l => (matchLit s l).bind fun l' => matchAtoms rest l'
  | PatAtom.skip p :: rest, l =>
    (greedySplits p l).findSome? fun sp => matchAtoms rest sp.2
  | PatAtom.cap p :: rest, l =>
    (greedySplits p l).findSome? fun sp =>
      (matchAtoms rest sp.2).map fun r => (sp.1 :: r.1, r.2)
  | PatAtom.lazyCap p :: rest, l =>
    (lazySplits p l).findSome? fun sp =>
      (matchAtoms rest sp.2).map fun r => (sp.1 :: r.1, r.2)

/-- The global `exec` loop: successive leftmost matches, resuming after the
end of each match.  `fuel` is initialised to the input length plus one;
every caption pattern starts with the literal `<text`, so each match
consumes input and the fuel bound is never the limiting factor on the
inputs considered. -/
def scanPattern (atoms : List PatAtom) : Nat → List Char → List (List (List Char))
  | 0, _ => []
  | _ + 1, [] => []
  | fuel + 1, c :: cs =>
    match matchAtoms atoms (c :: cs) with
    | some (caps, rest) => caps :: scanPattern atoms fuel rest
    | none => scanPattern atoms fuel cs

/-! ## The five caption regexes (`parseYouTubeCaptionXML`, lines 58-139) -/

/-- `[^>]*` -/
def neGt (c : Char) : Bool := !(c = '>')
/-- `[^"]*` -/
def neQuote (c : Char) : Bool := !(c = '"')
/-- `[^<]*` -/
def neLt (c : Char) : Bool := !(c = '<')
/-- the JS `.`: any character except a line terminator -/
def notNL (c : Char) : Bool :=
  !(c = '\n' || c = '\r' || c = ' ' || c = ' ')

/-- Pattern 1 (line 67): `<text[^>]*start="([^"]*)"[^>]*dur="([^"]*)"[^>]*>(.*?)<\/text>` -/
def pat1 : List PatAtom :=
  [PatAtom.lit "<text".data, PatAtom.skip neGt, PatAtom.lit "start=\"".data,
   PatAtom.cap neQuote, PatAtom.lit "\"".data, PatAtom.skip neGt,
   PatAtom.lit "dur=\"".data, PatAtom.cap neQuote, PatAtom.lit "\"".data,
   PatAtom.skip neGt, PatAtom.lit ">".data, PatAtom.lazyCap notNL,
   PatAtom.lit "</text>".data]

/-- Pattern 2 (line 70): same as pattern 1 with attribute name `duration`. -/
def pat2 : List PatAtom :=
  [PatAtom.lit "<text".data, PatAtom.skip neGt, PatAtom.lit "start=\"".data,
   PatAtom.cap neQuote, PatAtom.lit "\"".data, PatAtom.skip neGt,
   PatAtom.lit "duration=\"".data, PatAtom.cap neQuote, PatAtom.lit "\"".data,
   PatAtom.skip neGt, PatAtom.lit ">".data, PatAtom.lazyCap notNL,
   PatAtom.lit "</text>".data]

/-- Pattern 3 (line 73): `<text[^>]*start="([^"]*)"[^>]*dur="([^"]*)"[^>]*>([^<]*)`
(no closing tag). -/
def pat3 : List PatAtom :=
  [PatAtom.lit "<text".data, PatAtom.skip neGt, PatAtom.lit "start=\"".data,
   PatAtom.cap neQuote, PatAtom.lit "\"".data, PatAtom.skip neGt,
   PatAtom.lit "dur=\"".data, PatAtom.cap neQuote, PatAtom.lit "\"".data,
   PatAtom.skip neGt, PatAtom.lit ">".data, PatAtom.cap neLt]

/-- Pattern 4 (line 76): `<text[^>]*>(.*?)<\/text>` (bare text only). -/
def pat4 : List PatAtom :=
  [PatAtom.lit "<text".data, PatAtom.skip neGt, PatAtom.lit ">".data,
   PatAtom.lazyCap notNL, PatAtom.lit "</text>".data]

/-- Pattern 5 (line 79): `<text[^>]*start="([^"]*)"[^>]*dur="([^"]*)"[^>]*text="([^"]*)"`
(self-closing, text carried in an attribute). -/
def pat5 : List PatAtom :=
  [PatAtom.lit "<text".data, PatAtom.skip neGt, PatAtom.lit "start=\"".data,
   PatAtom.cap neQuote, PatAtom.lit "\"".data, PatAtom.skip neGt,
   PatAtom.lit "dur=\"".data, PatAtom.cap neQuote, PatAtom.lit "\"".data,
   PatAtom.skip neGt, PatAtom.lit "text=\"".data, PatAtom.cap neQuote,
   PatAtom.lit "\"".data]

/-- The pattern list in the order the source tries it (lines 65-80). -/
def captionPatterns : List (List PatAtom) := [pat1, pat2, pat3, pat4, pat5]

/-- `cleanXMLText` (lines 144-157): the exact chain of global replacements
of the source, in source order, followed by whitespace collapsing and a
trim.  (The `\n -> ' '` step is subsumed semantically by the collapsing
step but is reproduced anyway.) -/
def cleanXMLText (text : String) : String :=
  jsTrim (collapseWs
    (replaceAll
      (replaceAll
        (replaceAll
          (replaceAll
            (replaceAll
              (replaceAll
                (replaceAll
                  (replaceAll
                    (replaceAll text "&amp;" "&")
                    "&lt;" "<")
                  "&gt;" ">")
                "&quot;" "\"")
              "&#39;" "\x27")
            "&apos;" "\x27")
          "&#x27;" "\x27")
        "&#x2F;" "/")
      "\n" " "))

/-- The body of the `while ((match = regex.exec(xmlContent)) !== null)` loop
(lines 91-121), run over the match list of one pattern.  A three-capture
match is the `match.length === 4` case (start, duration, text); a
one-capture match is the `match.length === 2` case (text only, with
synthesized timing `segments.length * 3000` and the default duration of
3000 ms). -/
def runMatches : List (List (List Char)) → List TranscriptSegment → List TranscriptSegment
  | [], segments => segments
  | caps :: ms, segments =>
    match caps with
    | [a, d, t] =>
      let text := cleanXMLText ⟨t⟩
      if text.data.length > 0 then
        runMatches ms (segments ++
          [{ text := text,
             offset := jsMul (parseFloatJS ⟨a⟩) (JSNum.int 1000),
             duration := jsMul (parseFloatJS ⟨d⟩) (JSNum.int 1000) }])
      else runMatches ms segments
    | [t] =>
      let text := cleanXMLText ⟨t⟩
      if text.data.length > 0 then
        runMatches ms (segments ++
          [{ text := text,
             offset := JSNum.int (segments.length * 3000),
             duration := JSNum.int 3000 }])
      else runMatches ms segments
    | _ => runMatches ms segments

/-- The segments one pattern alone extracts, starting from no segments. -/
def runPattern (atoms : List PatAtom) (xml : String) : List TranscriptSegment :=
  runMatches (scanPattern atoms (xml.data.length + 1) xml.data) []

/-- The `for` loop over the patterns (lines 84-129): each pattern's matches
are appended into the shared `segments` array, and the loop breaks as soon
as `segments` is non-empty after a pattern. -/
def parseLoop (xml : List Char) :
    List (List PatAtom) → List TranscriptSegment → List TranscriptSegment
  | [], segments => segments
  | p :: ps, segments =>
    let segments' := runMatches (scanPattern p (xml.length + 1) xml) segments
    if segments'.length > 0 then segments' else parseLoop xml ps segments'

/-- `parseYouTubeCaptionXML` (lines 58-139). -/
def parseYouTubeCaptionXML (xmlContent : String) : List TranscriptSegment :=
  parseLoop xmlContent.data captionPatterns []

/-- The parser that §4.3 of the specification describes, word for word:
identical patterns, but with the self-closing/attribute-only variants
(patterns 3 and 5) both tried before the bare-text-only pattern 4.
Modelled from the spec for comparison with `parseYouTubeCaptionXML`. -/
def specOrderParse (xmlContent : String) : List TranscriptSegment :=
  parseLoop xmlContent.data [pat1, pat2, pat3, pat5, pat4] []

/-! ## Strategy chain executor (`extractTranscript`, lines 193-510)

Each strategy is an `async` closure whose network behaviour cannot be
embedded; what the executor sees of a strategy is either a thrown error
(with its message) or a returned array of raw items.  A raw item is an
arbitrary JS object probed with `typeof` checks, embedded as optional
fields (`none` models "absent or of the wrong type"). -/

/-- A raw transcript item as a strategy may return it (the `any`-typed
items validated at lines 436-452). -/
structure RawItem where
  text : Option String := none
  offset : Option JSNum := none
  start : Option JSNum := none
  duration : Option JSNum := none
  dur : Option JSNum := none
deriving DecidableEq, Repr

deriving instance DecidableEq for Except

/-- What one strategy's `await` produced: a thrown error or an array. -/
def StratResult : Type := Except String (List RawItem)

/-- The validity filter (lines 436-438): the item's `text` is a string
whose trim is non-empty. -/
def isValidItem (item : RawItem) : Bool :=
  match item.text with
  | some s => (jsTrim s).data.length > 0
  | none => false

/-- The normalisation map (lines 446-452): trim the text and coerce the
timing fields from whichever of the alternate field names is a number,
defaulting to 0. -/
def normalizeItem (item : RawItem) : TranscriptSegment :=
  { text := jsTrim (item.text.getD "")
    offset :=
      match item.offset with
      | some n => n
      | none => match item.start with
        | some n => n
        | none => JSNum.int 0
    duration :=
      match item.duration with
      | some n => n
      | none => match item.dur with
        | some n => n
        | none => JSNum.int 0 }

/-- The `try` block of one loop iteration (lines 421-463): a non-empty
array with at least one valid item succeeds with the normalised valid
items; an empty array throws `'Video has no captions available'`; a
non-empty array with no valid item falls through to
`'Invalid transcript format received'`; a strategy's own exception is
re-raised unchanged. -/
def attemptStrategy (r : StratResult) : Except String (List TranscriptSegment) :=
  match r with
  | Except.error m => Except.error m
  | Except.ok items =>
    if items.length > 0 then
      let validSegments := items.filter isValidItem
      if validSegments.length > 0 then Except.ok (validSegments.map normalizeItem)
      else Except.error "Invalid transcript format received"
    else Except.error "Video has no captions available"

/-- The no-captions signal phrases (lines 484-489). -/
def noCaptionsIndicators : List String :=
  ["no captions", "no caption tracks", "captions disabled", "transcript is disabled"]

/-- Lines 491-493: `lastError?.message?.toLowerCase().includes(indicator)`;
when no error was recorded the optional chain is undefined and every
indicator test is falsy. -/
def isNoCaptionsError : Option String → Bool
  | none => false
  | some m => noCaptionsIndicators.any fun ind => containsStr (jsToLower m) ind

/-- The no-captions terminal message (line 496). -/
def noCaptionsMessage : String :=
  "This video does not have captions/subtitles enabled. Please try a different video with captions or use manual transcript input."

/-- The generic terminal message (lines 500-509), interpolating the number
of configured strategies. -/
def genericFailureMessage (strategyCount : Nat) : String :=
  "Failed to extract transcript from this video after trying " ++
  toString strategyCount ++
  " different methods. This could be due to:\n• Video privacy restrictions\n• Captions in unsupported format\n• YouTube API limitations\n• Network connectivity issues\n\nPlease try:\n1. A different video with confirmed captions\n2. Manual transcript input\n3. Refresh and try again"

/-- The terminal classification (lines 478-509). -/
def finalErrorMessage (strategyCount : Nat) (lastError : Option String) : String :=
  if isNoCaptionsError lastError then noCaptionsMessage
  else genericFailureMessage strategyCount

/-- The strategy loop (lines 413-476): first success wins, every failure
overwrites `lastError`, and exhaustion raises the classified terminal
message. -/
def runChainAux (strategyCount : Nat) :
    List StratResult → Option String → Except String (List TranscriptSegment)
  | [], lastError => Except.error (finalErrorMessage strategyCount lastError)
  | r :: rs, _lastError =>
    match attemptStrategy r with
    | Except.ok segs => Except.ok segs
    | Except.error m => runChainAux strategyCount rs (some m)

/-- `extractTranscript` as a function of the strategies' raw results. -/
def runStrategyChain (results : List StratResult) : Except String (List TranscriptSegment) :=
  runChainAux results.length results none

/-! ## Combiner and extraction facade -/

/-- `Array.prototype.join(' ')`. -/
def joinSpace : List String → String
  | [] => ""
  | [s] => s
  | s :: rest => s ++ " " ++ joinSpace rest

/-- `combineTranscript` (lines 515-521). -/
def combineTranscript (segments : List TranscriptSegment) : String :=
  jsTrim (collapseWs (joinSpace (segments.map fun segment => segment.text)))

/-- The canonical watch URL the facade returns (line 571). -/
def watchUrl (videoId : String) : String :=
  "https://www.youtube.com/watch?v=" ++ videoId

/-- The placeholder `fullTranscript` synthesized when every transcript
strategy failed (lines 551-560), with the caught error's message
interpolated. -/
def placeholderTranscript (errorMessage : String) : String :=
  "[Automatic transcript extraction failed: " ++ errorMessage ++
  "\n\nTo get high-quality content generation, please:\n1. Go to the YouTube video\n2. Click the \"...\" menu below the video  \n3. Select \"Show transcript\"\n4. Copy the full transcript\n5. Paste it in the manual input area below\n\nThis will ensure the best possible content generation results.]"

/-- `extractYouTubeContent` (lines 526-580), embedded as a function of the
awaited results of its two effectful sub-calls: `getVideoMetadata` (whose
own catch-all guarantees a plain `VideoMetadata` value, lines 162-187) and
`extractTranscript` (either segments or a thrown message).  An
unresolvable identifier throws `'Invalid YouTube URL format'` before any
network work; a transcript failure is absorbed into the placeholder
segment (lines 546-567). -/
def extractYouTubeContent (url : String) (metadata : VideoMetadata)
    (transcriptResult : Except String (List TranscriptSegment)) :
    Except String ExtractedContent :=
  match extractVideoId url with
  | none => Except.error "Invalid YouTube URL format"
  | some videoId =>
    match transcriptResult with
    | Except.ok transcriptSegments =>
      Except.ok
        { videoId := videoId
          url := watchUrl videoId
          metadata := metadata
          transcript := transcriptSegments
          fullTranscript := combineTranscript transcriptSegments }
    | Except.error transcriptError =>
      let fullTranscript := placeholderTranscript transcriptError
      Except.ok
        { videoId := videoId
          url := watchUrl videoId
          metadata := metadata
          transcript := [{ text := fullTranscript, offset := JSNum.int 0, duration := JSNum.int 0 }]
          fullTranscript := fullTranscript }

/-- The transcript list of a facade result (empty on a thrown error);
accessor used to state concrete facts about facade runs. -/
def resultTranscript : Except String ExtractedContent → List TranscriptSegment
  | Except.ok c => c.transcript
  | Except.error _ => []

/-- The `fullTranscript` of a facade result (empty on a thrown error). -/
def resultFullTranscript : Except String ExtractedContent → String
  | Except.ok c => c.fullTranscript
  | Except.error _ => ""

/-! ## Auxiliary notions used only to state properties -/

/-- The first non-empty list of segment lists (used to state the
stop-at-first-successful-pattern property of the parser). -/
def firstNonEmpty : List (List TranscriptSegment) → List TranscriptSegment
  | [] => []
  | l :: ls => if l.length > 0 then l else firstNonEmpty ls

/-- Adjacent segments are in non-decreasing `offset` order (under the JS
comparison, so any NaN timing refutes sortedness, as it does in JS). -/
def offsetsSorted : List TranscriptSegment → Bool
  | [] => true
  | [_] => true
  | s₁ :: s₂ :: rest => jsLe s₁.offset s₂.offset && offsetsSorted (s₂ :: rest)

/-- How many capture groups an atom list has. -/
def capCount : List PatAtom → Nat
  | [] => 0
  | PatAtom.lit _ :: rest => capCount rest
  | PatAtom.skip _ :: rest => capCount rest
  | PatAtom.cap _ :: rest => capCount rest + 1
  | PatAtom.lazyCap _ :: rest => capCount rest + 1


/-- The failure message one strategy attempt records into `lastError`
(`none` when the attempt succeeds). -/
def recordedError (r : StratResult) : Option String :=
  match attemptStrategy r with
  | Except.error m => some m
  | Except.ok _ => none

/-- The value of `lastError` after a whole failing run: the recorded
message of the last strategy, or the incoming accumulator for an empty
run. -/
def lastRecorded (results : List StratResult) (acc : Option String) : Option String :=
  match results.getLast? with
  | some r => recordedError r
  | none => acc

/-- Whether `pat` already mismatches inside the concrete prefix `pre` (so
the mismatch is independent of whatever follows `pre`). -/
def litFailsConcrete : List Char → List Char → Bool
  | [], _ => false
  | _ :: _, [] => false
  | p :: ps, c :: cs => if p = c then litFailsConcrete ps cs else true

/-- No URL marker can start matching at any position inside `pre`,
whatever follows it. -/
def noMarkerConcrete : List Char → Bool
  | [] => true
  | c :: cs => (urlMarkers.all fun m => litFailsConcrete m (c :: cs)) && noMarkerConcrete cs

/-- A character list in the image of collapse-then-trim: every whitespace
character is a plain space and no two whitespace characters are
adjacent. -/
def WsNormalized (l : List Char) : Prop :=
  (∀ c ∈ l, isJsWs c = true → c = ' ') ∧
  List.Chain' (fun a b => ¬(isJsWs a = true ∧ isJsWs b = true)) l

/-- Head of a character list is not whitespace (vacuous for `[]`). -/
def headNonWs : List Char → Prop
  | [] => True
  | c :: _ => isJsWs c = false

/-! # Lemmas -/

theorem matchLit_self_append (m b : List Char) : matchLit m (m ++ b) = some b := by
  induction m with
  | nil => rfl
  | cons c cs ih => simp [matchLit, ih]

theorem matchLit_mem {pat l r : List Char} (h : matchLit pat l = some r) :
    ∀ c ∈ pat, c ∈ l := by
  induction pat generalizing l with
  | nil => simp
  | cons p ps ih =>
    cases l with
    | nil => simp [matchLit] at h
    | cons c cs =>
      simp only [matchLit] at h
      split at h
      · rename_i heq
        intro x hx
        rcases List.mem_cons.mp hx with h1 | h2
        · simp [h1, heq]
        · exact List.mem_cons_of_mem _ (ih h x h2)
      · exact absurd h (by simp)

theorem containsStrL_parts (a m b : List Char) : containsStrL (a ++ (m ++ b)) m = true := by
  induction a with
  | nil =>
    simp only [List.nil_append]
    cases hmb : m ++ b with
    | nil =>
      have hm : m = [] := by
        rcases List.append_eq_nil.mp hmb with ⟨h1, _⟩
        exact h1
      subst hm
      simp [containsStrL, matchLit]
    | cons c cs =>
      have h1 : matchLit m (c :: cs) = some b := by
        rw [← hmb]; exact matchLit_self_append m b
      simp [containsStrL, h1]
  | cons c cs ih =>
    simp only [List.cons_append]
    rw [containsStrL]
    simp [ih]

/-- A string assembled as `pre ++ mid ++ suf` contains `mid`. -/
theorem containsStr_parts (pre mid suf : String) :
    containsStr (pre ++ mid ++ suf) mid = true := by
  unfold containsStr
  rw [String.data_append, String.data_append, List.append_assoc]
  exact containsStrL_parts _ _ _

/-! ## Strategy-chain lemmas -/

theorem runChainAux_all_fail (n : Nat) :
    ∀ (results : List StratResult) (acc : Option String),
      (∀ r ∈ results, recordedError r ≠ none) →
      runChainAux n results acc =
        Except.error (finalErrorMessage n (lastRecorded results acc)) := by
  intro results
  induction results with
  | nil => intro acc _; rfl
  | cons r rs ih =>
    intro acc h
    have hr : recordedError r ≠ none := h r (List.mem_cons_self r rs)
    cases har : attemptStrategy r with
    | ok segs => exact absurd (by simp [recordedError, har]) hr
    | error m =>
      have hstep : runChainAux n (r :: rs) acc = runChainAux n rs (some m) := by
        simp [runChainAux, har]
      rw [hstep, ih (some m) (fun x hx => h x (List.mem_cons_of_mem r hx))]
      congr 1
      unfold lastRecorded
      cases rs with
      | nil => simp [recordedError, har]
      | cons r2 rs2 =>
        rw [List.getLast?_cons_cons]
        cases hgl : (r2 :: rs2).getLast? with
        | some r3 => rfl
        | none => exact absurd hgl (by simp)

theorem runStrategyChain_all_fail (results : List StratResult)
    (h : ∀ r ∈ results, recordedError r ≠ none) :
    runStrategyChain results =
      Except.error (finalErrorMessage results.length (lastRecorded results none)) :=
  runChainAux_all_fail results.length results none h

/-! # Claims -/

/-- C1.  For every input URL whose identifier resolves, the extraction
facade returns a well-formed `ExtractedContent` for every possible
transcript-branch outcome — in particular when every strategy failed and
the branch surfaced a thrown message — and only an unresolvable
identifier makes it throw, with the `'Invalid YouTube URL format'`
error. -/
theorem extractYouTubeContent_total_on_resolvable
    (url : String) (metadata : VideoMetadata)
    (transcriptResult : Except String (List TranscriptSegment)) :
    (∀ videoId, extractVideoId url = some videoId →
      ∃ content, extractYouTubeContent url metadata transcriptResult = Except.ok content ∧
        content.videoId = videoId ∧ content.url = watchUrl videoId ∧
        content.metadata = metadata) ∧
    (extractVideoId url = none →
      extractYouTubeContent url metadata transcriptResult =
        Except.error "Invalid YouTube URL format") := by
  constructor
  · intro videoId h
    cases transcriptResult with
    | ok segs =>
      refine ⟨{ videoId := videoId, url := watchUrl videoId, metadata := metadata,
                transcript := segs, fullTranscript := combineTranscript segs },
              ?_, rfl, rfl, rfl⟩
      simp [extractYouTubeContent, h]
    | error msg =>
      refine ⟨{ videoId := videoId, url := watchUrl videoId, metadata := metadata,
                transcript := [{ text := placeholderTranscript msg,
                                 offset := JSNum.int 0, duration := JSNum.int 0 }],
                fullTranscript := placeholderTranscript msg },
              ?_, rfl, rfl, rfl⟩
      simp [extractYouTubeContent, h]
  · intro h
    simp [extractYouTubeContent, h]

/-- Witness for C1 at a concrete resolvable URL and a failing transcript
branch. -/
theorem extractYouTubeContent_total_on_resolvable_witness :
    ∃ content,
      extractYouTubeContent "https://www.youtube.com/watch?v=dQw4w9WgXcQ"
        { title := "T", author := "A", duration := "Unknown" }
        (Except.error "boom") = Except.ok content ∧
      content.videoId = "dQw4w9WgXcQ" ∧ content.url = watchUrl "dQw4w9WgXcQ" ∧
      content.metadata = { title := "T", author := "A", duration := "Unknown" } :=
  (extractYouTubeContent_total_on_resolvable
    "https://www.youtube.com/watch?v=dQw4w9WgXcQ"
    { title := "T", author := "A", duration := "Unknown" }
    (Except.error "boom")).1 "dQw4w9WgXcQ" (by decide)

/-- C10.  Whenever the transcript branch failed, the facade's fallback
returns exactly one segment, with offset 0, duration 0, and text equal to
the synthesized placeholder `fullTranscript`; in particular the public
transcript array is non-empty even on total extraction failure. -/
theorem facade_failure_singleton_segment
    (url : String) (metadata : VideoMetadata) (msg videoId : String)
    (h : extractVideoId url = some videoId) :
    extractYouTubeContent url metadata (Except.error msg) =
      Except.ok
        { videoId := videoId, url := watchUrl videoId, metadata := metadata,
          transcript := [{ text := placeholderTranscript msg,
                           offset := JSNum.int 0, duration := JSNum.int 0 }],
          fullTranscript := placeholderTranscript msg } ∧
    resultTranscript (extractYouTubeContent url metadata (Except.error msg)) ≠ [] := by
  have hfac : extractYouTubeContent url metadata (Except.error msg) =
      Except.ok
        { videoId := videoId, url := watchUrl videoId, metadata := metadata,
          transcript := [{ text := placeholderTranscript msg,
                           offset := JSNum.int 0, duration := JSNum.int 0 }],
          fullTranscript := placeholderTranscript msg } := by
    simp [extractYouTubeContent, h]
  exact ⟨hfac, by simp [hfac, resultTranscript]⟩

/-- Witness for C10 at a concrete URL and failure message. -/
theorem facade_failure_singleton_segment_witness :
    extractYouTubeContent "https://youtu.be/dQw4w9WgXcQ"
        { title := "T", author := "A", duration := "Unknown" }
        (Except.error "boom") =
      Except.ok
        { videoId := "dQw4w9WgXcQ", url := watchUrl "dQw4w9WgXcQ",
          metadata := { title := "T", author := "A", duration := "Unknown" },
          transcript := [{ text := placeholderTranscript "boom",
                           offset := JSNum.int 0, duration := JSNum.int 0 }],
          fullTranscript := placeholderTranscript "boom" } ∧
    resultTranscript (extractYouTubeContent "https://youtu.be/dQw4w9WgXcQ"
        { title := "T", author := "A", duration := "Unknown" }
        (Except.error "boom")) ≠ [] :=
  facade_failure_singleton_segment "https://youtu.be/dQw4w9WgXcQ"
    { title := "T", author := "A", duration := "Unknown" } "boom" "dQw4w9WgXcQ" (by decide)

set_option maxRecDepth 10000 in
/-- C2, counterexample.  The claim says that when every strategy fails the
facade's `transcript` is the empty sequence and `fullTranscript` contains
the video title and author from metadata.  On a concrete failing run the
code instead returns a singleton placeholder segment, and the placeholder
text mentions neither the title nor the author. -/
theorem facade_fallback_transcript_cex :
    resultTranscript
        (extractYouTubeContent "https://www.youtube.com/watch?v=dQw4w9WgXcQ"
          { title := "Test Title", author := "Test Author", duration := "Unknown" }
          (runStrategyChain [Except.error "alpha failure", Except.error "beta failure"])) ≠
      [] ∧
    containsStr
        (resultFullTranscript
          (extractYouTubeContent "https://www.youtube.com/watch?v=dQw4w9WgXcQ"
            { title := "Test Title", author := "Test Author", duration := "Unknown" }
            (runStrategyChain [Except.error "alpha failure", Except.error "beta failure"])))
        "Test Title" = false ∧
    containsStr
        (resultFullTranscript
          (extractYouTubeContent "https://www.youtube.com/watch?v=dQw4w9WgXcQ"
            { title := "Test Title", author := "Test Author", duration := "Unknown" }
            (runStrategyChain [Except.error "alpha failure", Except.error "beta failure"])))
        "Test Author" = false := by
  decide

/-- C2, amended.  When every configured strategy fails, the facade returns
a singleton placeholder segment (not an empty sequence); `fullTranscript`
is the non-empty placeholder, which embeds the strategy chain's final
error message — it does not echo the metadata title or author. -/
theorem facade_fallback_placeholder (url : String) (metadata : VideoMetadata)
    (results : List StratResult) (videoId : String)
    (h : extractVideoId url = some videoId)
    (hfail : ∀ r ∈ results, recordedError r ≠ none) :
    ∃ msg, runStrategyChain results = Except.error msg ∧
      extractYouTubeContent url metadata (runStrategyChain results) =
        Except.ok
          { videoId := videoId, url := watchUrl videoId, metadata := metadata,
            transcript := [{ text := placeholderTranscript msg,
                             offset := JSNum.int 0, duration := JSNum.int 0 }],
            fullTranscript := placeholderTranscript msg } ∧
      (placeholderTranscript msg).data ≠ [] ∧
      containsStr (placeholderTranscript msg) msg = true := by
  have hchain := runStrategyChain_all_fail results hfail
  refine ⟨finalErrorMessage results.length (lastRecorded results none), hchain, ?_, ?_, ?_⟩
  · rw [hchain]
    simp [extractYouTubeContent, h]
  · unfold placeholderTranscript
    rw [String.data_append, String.data_append]
    intro hcontra
    rcases List.append_eq_nil.mp hcontra with ⟨h1, _⟩
    rcases List.append_eq_nil.mp h1 with ⟨h2, _⟩
    exact absurd h2 (by decide)
  · unfold placeholderTranscript
    exact containsStr_parts _ _ _

/-- Witness for C2's amended theorem on a concrete failing run. -/
theorem facade_fallback_placeholder_witness :
    ∃ msg,
      runStrategyChain [Except.error "alpha failure", Except.error "beta failure"] =
        Except.error msg ∧
      extractYouTubeContent "https://www.youtube.com/watch?v=dQw4w9WgXcQ"
          { title := "Test Title", author := "Test Author", duration := "Unknown" }
          (runStrategyChain [Except.error "alpha failure", Except.error "beta failure"]) =
        Except.ok
          { videoId := "dQw4w9WgXcQ", url := watchUrl "dQw4w9WgXcQ",
            metadata := { title := "Test Title", author := "Test Author", duration := "Unknown" },
            transcript := [{ text := placeholderTranscript msg,
                             offset := JSNum.int 0, duration := JSNum.int 0 }],
            fullTranscript := placeholderTranscript msg } ∧
      (placeholderTranscript msg).data ≠ [] ∧
      containsStr (placeholderTranscript msg) msg = true :=
  facade_fallback_placeholder "https://www.youtube.com/watch?v=dQw4w9WgXcQ"
    { title := "Test Title", author := "Test Author", duration := "Unknown" }
    [Except.error "alpha failure", Except.error "beta failure"]
    "dQw4w9WgXcQ" (by decide) (by decide)

set_option maxRecDepth 10000 in
/-- C3, counterexample.  The claim says that if any one recorded failure
message matches a no-captions pattern the aggregate outcome is the
no-captions classification even when later strategies failed for
unrelated reasons.  Concretely: the first strategy's recorded message
matches a no-captions indicator, the last does not, and the chain
classifies the run with the generic exhaustion message instead. -/
theorem classification_ignores_earlier_failures_cex :
    recordedError (Except.error "Video has no captions available") =
      some "Video has no captions available" ∧
    isNoCaptionsError (some "Video has no captions available") = true ∧
    runStrategyChain
        [Except.error "Video has no captions available",
         Except.error "network socket hang up"] =
      Except.error (genericFailureMessage 2) ∧
    genericFailureMessage 2 ≠ noCaptionsMessage := by
  decide

/-- C3, amended.  When every strategy fails, the terminal classification
is determined solely by the last recorded failure message: the aggregate
error is the no-captions message exactly when the last recorded message
matches a no-captions indicator, and otherwise the generic exhaustion
message carrying the number of strategies tried. -/
theorem classification_uses_last_error (results : List StratResult)
    (hfail : ∀ r ∈ results, recordedError r ≠ none) :
    runStrategyChain results =
      Except.error
        (if isNoCaptionsError (lastRecorded results none) then noCaptionsMessage
         else genericFailureMessage results.length) :=
  runStrategyChain_all_fail results hfail

/-- Witness for C3's amended theorem: the same chain as the
counterexample, classified by its last message only. -/
theorem classification_uses_last_error_witness :
    runStrategyChain
        [Except.error "Video has no captions available",
         Except.error "network socket hang up"] =
      Except.error
        (if isNoCaptionsError
              (lastRecorded
                [Except.error "Video has no captions available",
                 Except.error "network socket hang up"] none)
          then noCaptionsMessage
          else genericFailureMessage
            ([Except.error "Video has no captions available",
              Except.error "network socket hang up"] : List StratResult).length) :=
  classification_uses_last_error
    [Except.error "Video has no captions available",
     Except.error "network socket hang up"] (by decide)

/-! ## Parser-loop lemmas -/

theorem parseLoop_eq_firstNonEmpty (s : String) :
    ∀ ps : List (List PatAtom),
      parseLoop s.data ps [] = firstNonEmpty (ps.map fun p => runPattern p s) := by
  intro ps
  induction ps with
  | nil => rfl
  | cons p ps ih =>
    rw [parseLoop, List.map_cons, firstNonEmpty]
    show (if (runPattern p s).length > 0 then runPattern p s
          else parseLoop s.data ps (runPattern p s)) =
         (if (runPattern p s).length > 0 then runPattern p s
          else firstNonEmpty (ps.map fun q => runPattern q s))
    split
    · rfl
    · rename_i hn
      have hz : runPattern p s = [] := by
        have : (runPattern p s).length = 0 := by omega
        exact List.length_eq_zero.mp this
      rw [hz, ih]

theorem firstNonEmpty_eq_nil_iff (ls : List (List TranscriptSegment)) :
    firstNonEmpty ls = [] ↔ ∀ l ∈ ls, l = [] := by
  induction ls with
  | nil => simp [firstNonEmpty]
  | cons l ls ih =>
    rw [firstNonEmpty]
    constructor
    · intro h
      split at h
      · rename_i hpos
        exact absurd h (by intro hc; rw [hc] at hpos; simp at hpos)
      · rename_i hpos
        intro x hx
        rcases List.mem_cons.mp hx with h1 | h2
        · subst h1
          have : x.length = 0 := by omega
          exact List.length_eq_zero.mp this
        · exact ih.mp h x h2
    · intro h
      have hl : l = [] := h l (List.mem_cons_self l ls)
      rw [if_neg (by rw [hl]; simp)]
      exact ih.mpr fun x hx => h x (List.mem_cons_of_mem l hx)

theorem matchAtoms_caps_length :
    ∀ (atoms : List PatAtom) (l : List Char) (caps : List (List Char)) (r : List Char),
      matchAtoms atoms l = some (caps, r) → caps.length = capCount atoms := by
  intro atoms
  induction atoms with
  | nil =>
    intro l caps r h
    rw [matchAtoms] at h
    have h' := Option.some.inj h
    have hc : caps = [] := (congrArg Prod.fst h').symm
    rw [hc]
    rfl
  | cons a rest ih =>
    intro l caps r h
    cases a with
    | lit s =>
      rw [matchAtoms] at h
      cases hm : matchLit s l with
      | none => rw [hm] at h; simp at h
      | some l' =>
        rw [hm] at h
        exact ih l' caps r h
    | skip p =>
      rw [matchAtoms] at h
      rcases List.exists_of_findSome?_eq_some h with ⟨sp, _, hsp⟩
      exact ih sp.2 caps r hsp
    | cap p =>
      rw [matchAtoms] at h
      rcases List.exists_of_findSome?_eq_some h with ⟨sp, _, hsp⟩
      cases hrec : matchAtoms rest sp.2 with
      | none => rw [hrec] at hsp; simp at hsp
      | some pr =>
        rw [hrec] at hsp
        simp only [Option.map_some'] at hsp
        have hcaps : caps = sp.1 :: pr.1 := by
          have := congrArg Prod.fst (Option.some.inj hsp)
          exact this.symm
        rw [hcaps]
        simp [capCount, ih sp.2 pr.1 pr.2 hrec]
    | lazyCap p =>
      rw [matchAtoms] at h
      rcases List.exists_of_findSome?_eq_some h with ⟨sp, _, hsp⟩
      cases hrec : matchAtoms rest sp.2 with
      | none => rw [hrec] at hsp; simp at hsp
      | some pr =>
        rw [hrec] at hsp
        simp only [Option.map_some'] at hsp
        have hcaps : caps = sp.1 :: pr.1 := by
          have := congrArg Prod.fst (Option.some.inj hsp)
          exact this.symm
        rw [hcaps]
        simp [capCount, ih sp.2 pr.1 pr.2 hrec]

theorem scanPattern_caps_length (atoms : List PatAtom) :
    ∀ (fuel : Nat) (l : List Char) (caps : List (List Char)),
      caps ∈ scanPattern atoms fuel l → caps.length = capCount atoms := by
  intro fuel
  induction fuel with
  | zero => intro l caps h; simp [scanPattern] at h
  | succ fuel ih =>
    intro l caps h
    cases l with
    | nil => simp [scanPattern] at h
    | cons c cs =>
      rw [scanPattern] at h
      cases hm : matchAtoms atoms (c :: cs) with
      | none =>
        rw [hm] at h
        exact ih cs caps h
      | some pr =>
        rw [hm] at h
        rcases List.mem_cons.mp h with h1 | h2
        · subst h1
          exact matchAtoms_caps_length atoms (c :: cs) pr.1 pr.2 (by rw [hm])
        · exact ih pr.2 caps h2

theorem jsLe_int (a b : Int) : jsLe (JSNum.int a) (JSNum.int b) = decide (a ≤ b) := by
  simp [jsLe, JSNum.int]

theorem offsetsSorted_append_last (x : TranscriptSegment) :
    ∀ acc : List TranscriptSegment,
      offsetsSorted acc = true →
      (∀ seg ∈ acc, jsLe seg.offset x.offset = true) →
      offsetsSorted (acc ++ [x]) = true := by
  intro acc
  induction acc with
  | nil => intro _ _; rfl
  | cons s rest ih =>
    intro hs hle
    cases rest with
    | nil =>
      have := hle s (List.mem_cons_self s [])
      simp [offsetsSorted, this]
    | cons s2 r2 =>
      rw [offsetsSorted, Bool.and_eq_true] at hs
      have htail := ih hs.2 fun seg hseg => hle seg (List.mem_cons_of_mem s hseg)
      show offsetsSorted (s :: s2 :: (r2 ++ [x])) = true
      rw [offsetsSorted, Bool.and_eq_true]
      exact ⟨hs.1, htail⟩

theorem runMatches_single_cons (t : List Char) (ms : List (List (List Char)))
    (acc : List TranscriptSegment) :
    runMatches ([t] :: ms) acc =
      if (cleanXMLText ⟨t⟩).data.length > 0
      then runMatches ms (acc ++
        [{ text := cleanXMLText ⟨t⟩, offset := JSNum.int (acc.length * 3000),
           duration := JSNum.int 3000 }])
      else runMatches ms acc := by
  rw [runMatches]

theorem runMatches_singleCaps_sorted :
    ∀ (ms : List (List (List Char))) (acc : List TranscriptSegment),
      (∀ caps ∈ ms, caps.length = 1) →
      offsetsSorted acc = true →
      (∀ seg ∈ acc, ∃ n : Int, seg.offset = JSNum.int n ∧ n ≤ (acc.length : Int) * 3000) →
      offsetsSorted (runMatches ms acc) = true := by
  intro ms
  induction ms with
  | nil => intro acc _ hs _; exact hs
  | cons caps rest ih =>
    intro acc hcaps hs hinv
    have hlen : caps.length = 1 := hcaps caps (List.mem_cons_self caps rest)
    obtain ⟨t, ht⟩ : ∃ t, caps = [t] := by
      cases caps with
      | nil => simp at hlen
      | cons t ts =>
        cases ts with
        | nil => exact ⟨t, rfl⟩
        | cons _ _ => simp at hlen
    subst ht
    rw [runMatches_single_cons]
    by_cases hpos : (cleanXMLText ⟨t⟩).data.length > 0
    · rw [if_pos hpos]
      apply ih _ (fun c hc => hcaps c (List.mem_cons_of_mem _ hc))
      · apply offsetsSorted_append_last _ _ hs
        intro seg hseg
        rcases hinv seg hseg with ⟨n, hoff, hbound⟩
        rw [hoff, jsLe_int]
        simp only [decide_eq_true_eq]
        exact hbound
      · intro seg hseg
        rcases List.mem_append.mp hseg with hmem | hmem
        · rcases hinv seg hmem with ⟨n, hoff, hbound⟩
          refine ⟨n, hoff, ?_⟩
          simp only [List.length_append, List.length_cons, List.length_nil]
          omega
        · rcases List.mem_singleton.mp hmem with rfl
          refine ⟨(acc.length : Int) * 3000, rfl, ?_⟩
          simp only [List.length_append, List.length_cons, List.length_nil]
          omega
    · rw [if_neg hpos]
      exact ih acc (fun c hc => hcaps c (List.mem_cons_of_mem _ hc)) hs hinv

/-- C4, counterexample.  On an input holding a bare-text cue and a
self-closing attribute cue, the code's parser returns the bare-text
segment (pattern 4 fires first), while a parser honouring the spec's
priority order — self-closing variants before bare-text-only — returns
the attribute cue's segment; the two orders are observably different. -/
theorem parser_pattern_order_cex :
    parseYouTubeCaptionXML "<text>Bare</text><text start=\"1\" dur=\"2\" text=\"Attr\"/>" =
      [{ text := "Bare", offset := JSNum.int 0, duration := JSNum.int 3000 }] ∧
    specOrderParse "<text>Bare</text><text start=\"1\" dur=\"2\" text=\"Attr\"/>" =
      [{ text := "Attr", offset := JSNum.dec 1000 0, duration := JSNum.dec 2000 0 }] ∧
    runPattern pat5 "<text>Bare</text><text start=\"1\" dur=\"2\" text=\"Attr\"/>" ≠ [] ∧
    parseYouTubeCaptionXML "<text>Bare</text><text start=\"1\" dur=\"2\" text=\"Attr\"/>" ≠
      specOrderParse "<text>Bare</text><text start=\"1\" dur=\"2\" text=\"Attr\"/>" := by
  refine ⟨by decide, by decide, by decide, by decide⟩

/-- C4, amended.  The parser tries its patterns in the fixed order of the
source — explicit `start`+`dur`, then `start`+`duration`, then the
unterminated-tag variant, then bare-text-only, and the self-closing
`text`-attribute variant last — and returns the result of the first
pattern that yields at least one segment with non-empty decoded text, so
no later pattern contributes segments. -/
theorem parser_first_nonempty_pattern (xmlContent : String) :
    parseYouTubeCaptionXML xmlContent =
      firstNonEmpty
        [runPattern pat1 xmlContent, runPattern pat2 xmlContent,
         runPattern pat3 xmlContent, runPattern pat4 xmlContent,
         runPattern pat5 xmlContent] :=
  parseLoop_eq_firstNonEmpty xmlContent captionPatterns

/-- C9.  The caption parser is total: for every input it yields a list of
segments (never a thrown error — the embedding is a total function), and
it yields the empty list exactly when no pattern extracts a segment with
non-empty decoded text. -/
theorem parseCaptionXML_nil_iff (xmlContent : String) :
    parseYouTubeCaptionXML xmlContent = [] ↔
      ∀ p ∈ captionPatterns, runPattern p xmlContent = [] := by
  unfold parseYouTubeCaptionXML
  rw [parseLoop_eq_firstNonEmpty xmlContent captionPatterns,
    firstNonEmpty_eq_nil_iff]
  constructor
  · intro h p hp
    exact h (runPattern p xmlContent) (List.mem_map_of_mem _ hp)
  · intro h l hl
    rcases List.mem_map.mp hl with ⟨p, hp, rfl⟩
    exact h p hp

/-- C7, counterexample.  The claim says parser output is always sorted by
non-decreasing offset; a caption document whose cues carry out-of-order
`start` attributes is parsed in markup order, producing offsets 5000 ms
then 2000 ms. -/
theorem parser_unsorted_cex :
    parseYouTubeCaptionXML
        "<text start=\"5\" dur=\"1\">A</text><text start=\"2\" dur=\"1\">B</text>" =
      [{ text := "A", offset := JSNum.dec 5000 0, duration := JSNum.dec 1000 0 },
       { text := "B", offset := JSNum.dec 2000 0, duration := JSNum.dec 1000 0 }] ∧
    offsetsSorted
        (parseYouTubeCaptionXML
          "<text start=\"5\" dur=\"1\">A</text><text start=\"2\" dur=\"1\">B</text>") =
      false := by
  refine ⟨by decide, by decide⟩

/-- C7, amended.  Segments are emitted in markup-match order, not sorted:
offsets are non-decreasing only when the matched `start` attributes are.
When timing is synthesized — the bare-text pattern 4, which assigns
`segments.length * 3000` — the output is always sorted by non-decreasing
offset. -/
theorem parser_bare_text_sorted (xmlContent : String) :
    offsetsSorted (runPattern pat4 xmlContent) = true := by
  apply runMatches_singleCaps_sorted
  · intro caps hc
    have := scanPattern_caps_length pat4 (xmlContent.data.length + 1) xmlContent.data caps hc
    rw [this]
    rfl
  · rfl
  · intro seg hseg
    exact absurd hseg (List.not_mem_nil seg)

/-- C8, counterexample.  The claim says the decoder handles common
non-breaking-space entity variants and strips embedded inline markup
tags.  On a concrete cue text the code leaves `&nbsp;` undecoded and the
`<i>` tag in place (only the `&amp;` is decoded). -/
theorem cleanXMLText_no_tag_strip_cex :
    cleanXMLText "&amp; &nbsp; <i>x</i>" = "& &nbsp; <i>x</i>" ∧
    containsStr (cleanXMLText "&amp; &nbsp; <i>x</i>") "&nbsp;" = true ∧
    containsStr (cleanXMLText "&amp; &nbsp; <i>x</i>") "<i>" = true := by
  refine ⟨by decide, by decide, by decide⟩

/-- C8, amended.  The decoder un-escapes exactly the entities
`&amp; &lt; &gt; &quot; &#39; &apos; &#x27; &#x2F;` by sequential global
replacement (in that order), converts newlines to spaces, collapses
whitespace runs to single spaces and trims; it neither decodes
non-breaking-space entities nor strips embedded markup tags.  A cue text
containing `&amp;` outside any longer escaped sequence decodes to `&` in
its place. -/
theorem cleanXMLText_entity_decoding :
    cleanXMLText "&amp;" = "&" ∧
    cleanXMLText "&lt;" = "<" ∧
    cleanXMLText "&gt;" = ">" ∧
    cleanXMLText "&quot;" = "\"" ∧
    cleanXMLText "&#39;" = "\x27" ∧
    cleanXMLText "&apos;" = "\x27" ∧
    cleanXMLText "&#x27;" = "\x27" ∧
    cleanXMLText "&#x2F;" = "/" ∧
    cleanXMLText "&nbsp;" = "&nbsp;" ∧
    cleanXMLText "a <b>c</b>" = "a <b>c</b>" ∧
    cleanXMLText "a\nb" = "a b" ∧
    cleanXMLText "  a   b " = "a b" ∧
    cleanXMLText "pre &amp; post" = "pre & post" ∧
    cleanXMLText "&amp;lt;" = "<" := by
  refine ⟨by decide, by decide, by decide, by decide, by decide, by decide, by decide,
    by decide, by decide, by decide, by decide, by decide, by decide, by decide⟩

/-! ## Identifier-resolver lemmas -/

theorem litFailsConcrete_sound :
    ∀ pat pre : List Char, litFailsConcrete pat pre = true →
      ∀ d, matchLit pat (pre ++ d) = none := by
  intro pat
  induction pat with
  | nil => intro pre h; simp [litFailsConcrete] at h
  | cons p ps ih =>
    intro pre h d
    cases pre with
    | nil => simp [litFailsConcrete] at h
    | cons c cs =>
      rw [litFailsConcrete] at h
      show matchLit (p :: ps) (c :: (cs ++ d)) = none
      by_cases hpc : p = c
      · rw [if_pos hpc] at h
        rw [matchLit, if_pos hpc]
        exact ih cs h d
      · rw [matchLit, if_neg hpc]

theorem tryAltsAt_none_concrete (c : Char) (cs : List Char)
    (h : (urlMarkers.all fun m => litFailsConcrete m (c :: cs)) = true) (d : List Char) :
    tryAltsAt (c :: (cs ++ d)) = none := by
  have hall := List.all_eq_true.mp h
  unfold tryAltsAt
  apply List.findSome?_eq_none_iff.mpr
  intro m hm
  rw [← List.cons_append, litFailsConcrete_sound m (c :: cs) (hall m hm) d]
  rfl

theorem searchRegex1_skip (pre : List Char) (h : noMarkerConcrete pre = true) :
    ∀ d, searchRegex1 (pre ++ d) = searchRegex1 d := by
  induction pre with
  | nil => intro d; rfl
  | cons c cs ih =>
    rw [noMarkerConcrete, Bool.and_eq_true] at h
    intro d
    show searchRegex1 (c :: (cs ++ d)) = searchRegex1 d
    rw [searchRegex1, tryAltsAt_none_concrete c cs h.1 d]
    exact ih h.2 d

theorem searchRegex1_of_head (l cap : List Char)
    (hne : l ≠ []) (h : tryAltsAt l = some cap) : searchRegex1 l = some cap := by
  cases l with
  | nil => exact absurd rfl hne
  | cons c cs => rw [searchRegex1, h]

theorem idChar_capture {c : Char} (h : isIdChar c = true) : isCaptureChar c = true := by
  have h1 : c ≠ '&' := by rintro rfl; exact absurd h (by decide)
  have h2 : c ≠ '\n' := by rintro rfl; exact absurd h (by decide)
  have h3 : c ≠ '?' := by rintro rfl; exact absurd h (by decide)
  have h4 : c ≠ '#' := by rintro rfl; exact absurd h (by decide)
  simp [isCaptureChar, h1, h2, h3, h4]

theorem searchRegex1_none_of_idChars :
    ∀ l : List Char, (∀ c ∈ l, isIdChar c = true) → searchRegex1 l = none := by
  intro l
  induction l with
  | nil => intro _; rfl
  | cons c cs ih =>
    intro h
    have hdot : ('.' : Char) ∉ c :: cs := by
      intro hmem
      exact absurd (h '.' hmem) (by decide)
    have hnone : tryAltsAt (c :: cs) = none := by
      unfold tryAltsAt
      apply List.findSome?_eq_none_iff.mpr
      intro m hm
      cases hml : matchLit m (c :: cs) with
      | none => rfl
      | some r =>
        exfalso
        apply hdot
        apply matchLit_mem hml '.'
        fin_cases hm <;> decide
    rw [searchRegex1, hnone]
    exact ih fun x hx => h x (List.mem_cons_of_mem c hx)

/-- Successful anchored attempt of regex 1 at a marker position: the
matching alternative wins (any earlier alternative must already have
mismatched inside its concrete prefix) and the greedy one-or-more capture
takes the whole remainder. -/
theorem tryAltsAt_hit_first (d : List Char)
    (htake : d.takeWhile isCaptureChar = d) (hne : d.isEmpty = false) :
    tryAltsAt ("youtube.com/watch?v=".data ++ d) = some d := by
  unfold tryAltsAt
  rw [show urlMarkers =
    ["youtube.com/watch?v=".data, "youtu.be/".data, "youtube.com/embed/".data] from rfl]
  simp only [List.findSome?_cons, matchLit_self_append, Option.some_bind]
  simp [htake, hne]

theorem tryAltsAt_hit_second (d : List Char)
    (htake : d.takeWhile isCaptureChar = d) (hne : d.isEmpty = false) :
    tryAltsAt ("youtu.be/".data ++ d) = some d := by
  unfold tryAltsAt
  rw [show urlMarkers =
    ["youtube.com/watch?v=".data, "youtu.be/".data, "youtube.com/embed/".data] from rfl]
  have hfail1 : matchLit "youtube.com/watch?v=".data ("youtu.be/".data ++ d) = none :=
    litFailsConcrete_sound _ _ (by decide) d
  simp only [List.findSome?_cons, hfail1, Option.none_bind, matchLit_self_append,
    Option.some_bind]
  simp [htake, hne]

theorem tryAltsAt_hit_third (d : List Char)
    (htake : d.takeWhile isCaptureChar = d) (hne : d.isEmpty = false) :
    tryAltsAt ("youtube.com/embed/".data ++ d) = some d := by
  unfold tryAltsAt
  rw [show urlMarkers =
    ["youtube.com/watch?v=".data, "youtu.be/".data, "youtube.com/embed/".data] from rfl]
  have hfail1 : matchLit "youtube.com/watch?v=".data ("youtube.com/embed/".data ++ d) = none :=
    litFailsConcrete_sound _ _ (by decide) d
  have hfail2 : matchLit "youtu.be/".data ("youtube.com/embed/".data ++ d) = none :=
    litFailsConcrete_sound _ _ (by decide) d
  simp only [List.findSome?_cons, hfail1, hfail2, Option.none_bind, matchLit_self_append,
    Option.some_bind]
  simp [htake, hne]

/-- C6.  For every 11-character identifier over `[A-Za-z0-9_-]`, the
resolver returns the same identifier for all four accepted surface forms:
the full watch-page URL, the short-link URL, the embed URL, and the bare
token.  (Purity is by construction: `extractVideoId` is a function of its
input string alone.) -/
theorem extractVideoId_uniform_surface_forms (id : String)
    (hlen : id.data.length = 11) (hch : ∀ c ∈ id.data, isIdChar c = true) :
    extractVideoId ("https://www.youtube.com/watch?v=" ++ id) = some id ∧
    extractVideoId ("https://youtu.be/" ++ id) = some id ∧
    extractVideoId ("https://www.youtube.com/embed/" ++ id) = some id ∧
    extractVideoId id = some id := by
  obtain ⟨d⟩ := id
  have htake : d.takeWhile isCaptureChar = d :=
    List.takeWhile_eq_self_iff.mpr fun c hc => idChar_capture (hch c hc)
  have hne : d.isEmpty = false := by
    cases hd : d with
    | nil => rw [hd] at hlen; simp at hlen
    | cons a l => rfl
  refine ⟨?_, ?_, ?_, ?_⟩
  · unfold extractVideoId
    rw [String.data_append,
      show ("https://www.youtube.com/watch?v=".data : List Char) =
        "https://www.".data ++ "youtube.com/watch?v=".data from by decide,
      List.append_assoc, searchRegex1_skip "https://www.".data (by decide),
      searchRegex1_of_head _ d
        (List.append_ne_nil_of_left_ne_nil
          (show "youtube.com/watch?v=".data ≠ [] from by decide) d)
        (tryAltsAt_hit_first d htake hne)]
  · unfold extractVideoId
    rw [String.data_append,
      show ("https://youtu.be/".data : List Char) =
        "https://".data ++ "youtu.be/".data from by decide,
      List.append_assoc, searchRegex1_skip "https://".data (by decide),
      searchRegex1_of_head _ d
        (List.append_ne_nil_of_left_ne_nil
          (show "youtu.be/".data ≠ [] from by decide) d)
        (tryAltsAt_hit_second d htake hne)]
  · unfold extractVideoId
    rw [String.data_append,
      show ("https://www.youtube.com/embed/".data : List Char) =
        "https://www.".data ++ "youtube.com/embed/".data from by decide,
      List.append_assoc, searchRegex1_skip "https://www.".data (by decide),
      searchRegex1_of_head _ d
        (List.append_ne_nil_of_left_ne_nil
          (show "youtube.com/embed/".data ≠ [] from by decide) d)
        (tryAltsAt_hit_third d htake hne)]
  · unfold extractVideoId
    rw [searchRegex1_none_of_idChars d hch]
    have hall : d.all isIdChar = true := List.all_eq_true.mpr fun c hc => hch c hc
    simp [hlen, hall]

/-- Witness for C6 at a concrete identifier. -/
theorem extractVideoId_uniform_surface_forms_witness :
    extractVideoId ("https://www.youtube.com/watch?v=" ++ "dQw4w9WgXcQ") = some "dQw4w9WgXcQ" ∧
    extractVideoId ("https://youtu.be/" ++ "dQw4w9WgXcQ") = some "dQw4w9WgXcQ" ∧
    extractVideoId ("https://www.youtube.com/embed/" ++ "dQw4w9WgXcQ") = some "dQw4w9WgXcQ" ∧
    extractVideoId "dQw4w9WgXcQ" = some "dQw4w9WgXcQ" :=
  extractVideoId_uniform_surface_forms "dQw4w9WgXcQ" (by decide) (by decide)

/-! ## Whitespace-normalisation lemmas (for the Combiner law) -/

theorem dropWhile_length_le (p : Char → Bool) :
    ∀ l : List Char, (l.dropWhile p).length ≤ l.length := by
  intro l
  induction l with
  | nil => simp
  | cons c cs ih =>
    rw [List.dropWhile_cons]
    split
    · exact le_trans ih (by simp)
    · simp

theorem collapseAux_true (l : List Char) :
    collapseAux true l = collapseAux false (l.dropWhile isJsWs) := by
  induction l with
  | nil => rfl
  | cons c cs ih =>
    by_cases h : isJsWs c = true
    · rw [List.dropWhile_cons, if_pos h, ← ih]
      simp [collapseAux, h]
    · rw [List.dropWhile_cons, if_neg h]
      simp [collapseAux, h]

theorem headNonWs_collapseAux_true : ∀ l : List Char, headNonWs (collapseAux true l) := by
  intro l
  induction l with
  | nil => trivial
  | cons c cs ih =>
    by_cases h : isJsWs c = true
    · simpa [collapseAux, h] using ih
    · simp only [collapseAux, h, if_false, Bool.false_eq_true]
      simpa [headNonWs] using h

theorem norm_nil : WsNormalized [] := ⟨by simp, List.chain'_nil⟩

theorem norm_cons_space {l : List Char} (h : WsNormalized l) (hh : headNonWs l) :
    WsNormalized (' ' :: l) := by
  constructor
  · intro c hc hw
    rcases List.mem_cons.mp hc with rfl | hmem
    · rfl
    · exact h.1 c hmem hw
  · rw [List.chain'_cons']
    refine ⟨?_, h.2⟩
    intro x hx
    cases l with
    | nil => simp at hx
    | cons d ds =>
      simp only [List.head?_cons, Option.mem_def, Option.some.injEq] at hx
      subst hx
      rintro ⟨_, hwd⟩
      rw [headNonWs] at hh
      exact absurd hwd (by simp [hh])

theorem norm_cons_nonws {c : Char} {l : List Char} (hc : isJsWs c = false)
    (h : WsNormalized l) : WsNormalized (c :: l) := by
  constructor
  · intro x hx hw
    rcases List.mem_cons.mp hx with rfl | hmem
    · exact absurd hw (by simp [hc])
    · exact h.1 x hmem hw
  · rw [List.chain'_cons']
    refine ⟨?_, h.2⟩
    intro x _
    rintro ⟨h1, _⟩
    exact absurd h1 (by simp [hc])

theorem collapse_norm : ∀ (n : Nat) (l : List Char), l.length ≤ n →
    WsNormalized (collapseAux false l) ∧ WsNormalized (collapseAux true l) := by
  intro n
  induction n with
  | zero =>
    intro l h
    have hl : l = [] := List.length_eq_zero.mp (Nat.le_zero.mp h)
    subst hl
    exact ⟨norm_nil, norm_nil⟩
  | succ n ih =>
    intro l hlen
    cases l with
    | nil => exact ⟨norm_nil, norm_nil⟩
    | cons c cs =>
      simp only [List.length_cons, Nat.succ_le_succ_iff] at hlen
      by_cases hws : isJsWs c = true
      · have hdroplen : (cs.dropWhile isJsWs).length ≤ n :=
          le_trans (dropWhile_length_le isJsWs cs) hlen
        have hnorm := (ih (cs.dropWhile isJsWs) hdroplen).1
        have htrue : collapseAux true (c :: cs) = collapseAux false (cs.dropWhile isJsWs) := by
          rw [← collapseAux_true cs]
          simp [collapseAux, hws]
        have hfalse : collapseAux false (c :: cs) = ' ' :: collapseAux true cs := by
          simp [collapseAux, hws]
        constructor
        · rw [hfalse, collapseAux_true cs]
          exact norm_cons_space hnorm
            (by rw [← collapseAux_true cs]; exact headNonWs_collapseAux_true cs)
        · rw [htrue]
          exact hnorm
      · have hnorm := (ih cs hlen).1
        have hcfalse : isJsWs c = false := by simpa using hws
        have heq : ∀ b : Bool, collapseAux b (c :: cs) = c :: collapseAux false cs := by
          intro b
          cases b <;> simp [collapseAux, hws]
        constructor
        · rw [heq false]; exact norm_cons_nonws hcfalse hnorm
        · rw [heq true]; exact norm_cons_nonws hcfalse hnorm

theorem norm_collapse_id : ∀ l : List Char, WsNormalized l → collapseAux false l = l := by
  intro l
  induction l with
  | nil => intro _; rfl
  | cons c cs ih =>
    intro h
    have htail : WsNormalized cs :=
      ⟨fun x hx hw => h.1 x (List.mem_cons_of_mem _ hx) hw, (List.chain'_cons'.mp h.2).2⟩
    by_cases hws : isJsWs c = true
    · have hc : c = ' ' := h.1 c (List.mem_cons_self c cs) hws
      have hhead : headNonWs cs := by
        cases cs with
        | nil => trivial
        | cons d ds =>
          have hcond := (List.chain'_cons'.mp h.2).1 d (by simp)
          rw [headNonWs]
          by_contra hd
          exact hcond ⟨hws, by simpa using hd⟩
      have hdrop : cs.dropWhile isJsWs = cs := by
        cases cs with
        | nil => rfl
        | cons d ds =>
          rw [headNonWs] at hhead
          rw [List.dropWhile_cons, if_neg (by simp [hhead])]
      calc collapseAux false (c :: cs)
          = ' ' :: collapseAux true cs := by simp [collapseAux, hws]
        _ = ' ' :: collapseAux false cs := by rw [collapseAux_true cs, hdrop]
        _ = c :: cs := by rw [ih htail, hc]
    · calc collapseAux false (c :: cs)
          = c :: collapseAux false cs := by simp [collapseAux, hws]
        _ = c :: cs := by rw [ih htail]

theorem norm_suffix {l l' : List Char} (h : WsNormalized l) (hs : l' <:+ l) :
    WsNormalized l' :=
  ⟨fun c hc hw => h.1 c (hs.subset hc) hw, h.2.suffix hs⟩

theorem norm_reverse {l : List Char} (h : WsNormalized l) : WsNormalized l.reverse := by
  constructor
  · intro c hc hw
    exact h.1 c (List.mem_reverse.mp hc) hw
  · rw [List.chain'_reverse]
    exact h.2.imp fun a b hab => fun hflip => hab ⟨hflip.2, hflip.1⟩

theorem norm_trim {l : List Char} (h : WsNormalized l) : WsNormalized (jsTrimL l) := by
  unfold jsTrimL
  exact norm_reverse
    (norm_suffix (norm_reverse (norm_suffix h (List.dropWhile_suffix isJsWs)))
      (List.dropWhile_suffix isJsWs))

theorem head?_dropWhile {p : Char → Bool} :
    ∀ (l : List Char) (c : Char), (l.dropWhile p).head? = some c → p c = false := by
  intro l
  induction l with
  | nil => intro c h; simp at h
  | cons d ds ih =>
    intro c h
    rw [List.dropWhile_cons] at h
    split at h
    · exact ih c h
    · rename_i hd
      simp only [List.head?_cons, Option.some.injEq] at h
      subst h
      simpa using hd

theorem dropWhile_eq_self_of_headNonWs {p : Char → Bool} {l : List Char}
    (h : ∀ c, l.head? = some c → p c = false) : l.dropWhile p = l := by
  cases l with
  | nil => rfl
  | cons d ds =>
    rw [List.dropWhile_cons, if_neg (by simp [h d rfl])]

theorem getLast?_dropWhile {p : Char → Bool} :
    ∀ l : List Char, l.dropWhile p ≠ [] → (l.dropWhile p).getLast? = l.getLast? := by
  intro l
  induction l with
  | nil => intro h; simp at h
  | cons d ds ih =>
    intro hne
    by_cases hp : p d
    · rw [List.dropWhile_cons, if_pos hp] at hne ⊢
      rw [ih hne]
      cases ds with
      | nil => exact absurd (by rfl) hne
      | cons e es => rw [List.getLast?_cons_cons]
    · rw [List.dropWhile_cons, if_neg hp]

theorem trim_of_trimmed {l : List Char}
    (hh : ∀ c, l.head? = some c → isJsWs c = false)
    (hl : ∀ c, l.getLast? = some c → isJsWs c = false) :
    jsTrimL l = l := by
  unfold jsTrimL
  rw [dropWhile_eq_self_of_headNonWs hh,
    dropWhile_eq_self_of_headNonWs fun c hc => hl c (by rwa [List.head?_reverse] at hc),
    List.reverse_reverse]

theorem jsTrimL_head {l : List Char} :
    ∀ c, (jsTrimL l).head? = some c → isJsWs c = false := by
  intro c hc
  unfold jsTrimL at hc
  rw [List.head?_reverse] at hc
  have hBne : ((l.dropWhile isJsWs).reverse.dropWhile isJsWs) ≠ [] := by
    intro hB
    rw [hB] at hc
    simp at hc
  rw [getLast?_dropWhile _ hBne, List.getLast?_reverse] at hc
  exact head?_dropWhile l c hc

theorem jsTrimL_last {l : List Char} :
    ∀ c, (jsTrimL l).getLast? = some c → isJsWs c = false := by
  intro c hc
  unfold jsTrimL at hc
  rw [List.getLast?_reverse] at hc
  exact head?_dropWhile _ c hc

/-- C5.  For every non-empty segment list, the Combiner's output is the
space-joined, whitespace-collapsed, trimmed concatenation of the segment
texts in order, and the Combiner is idempotent: feeding its own output
back (as the text of a single segment) reproduces the same string. -/
theorem combineTranscript_join_idempotent (segments : List TranscriptSegment)
    (_h : segments ≠ []) :
    combineTranscript segments =
      jsTrim (collapseWs (joinSpace (segments.map fun segment => segment.text))) ∧
    combineTranscript
        [{ text := combineTranscript segments,
           offset := JSNum.int 0, duration := JSNum.int 0 }] =
      combineTranscript segments := by
  refine ⟨rfl, ?_⟩
  have hbase :=
    (collapse_norm (joinSpace (segments.map fun segment => segment.text)).data.length
      (joinSpace (segments.map fun segment => segment.text)).data (le_refl _)).1
  have hnv : WsNormalized
      (jsTrimL (collapseAux false (joinSpace (segments.map fun segment => segment.text)).data)) :=
    norm_trim hbase
  have hcv := norm_collapse_id _ hnv
  have htv : jsTrimL
      (jsTrimL (collapseAux false (joinSpace (segments.map fun segment => segment.text)).data)) =
      jsTrimL (collapseAux false (joinSpace (segments.map fun segment => segment.text)).data) :=
    trim_of_trimmed (fun c hc => jsTrimL_head c hc) (fun c hc => jsTrimL_last c hc)
  show (⟨jsTrimL (collapseAux false
      (jsTrimL (collapseAux false
        (joinSpace (segments.map fun segment => segment.text)).data)))⟩ : String) =
    ⟨jsTrimL (collapseAux false (joinSpace (segments.map fun segment => segment.text)).data)⟩
  rw [hcv, htv]

/-- Witness for C5 at a concrete two-segment transcript. -/
theorem combineTranscript_join_idempotent_witness :
    ([{ text := "Hello &\n welcome", offset := JSNum.dec 0 1, duration := JSNum.dec 25000 1 },
      { text := "to  the show ", offset := JSNum.dec 25000 1, duration := JSNum.dec 15000 1 }] :
        List TranscriptSegment) ≠ [] ∧
    (combineTranscript
        [{ text := "Hello &\n welcome", offset := JSNum.dec 0 1, duration := JSNum.dec 25000 1 },
         { text := "to  the show ", offset := JSNum.dec 25000 1, duration := JSNum.dec 15000 1 }] =
      jsTrim (collapseWs (joinSpace
        (([{ text := "Hello &\n welcome", offset := JSNum.dec 0 1, duration := JSNum.dec 25000 1 },
           { text := "to  the show ", offset := JSNum.dec 25000 1, duration := JSNum.dec 15000 1 }] :
             List TranscriptSegment).map fun segment => segment.text))) ∧
    combineTranscript
        [{ text := combineTranscript
            [{ text := "Hello &\n welcome", offset := JSNum.dec 0 1, duration := JSNum.dec 25000 1 },
             { text := "to  the show ", offset := JSNum.dec 25000 1, duration := JSNum.dec 15000 1 }],
           offset := JSNum.int 0, duration := JSNum.int 0 }] =
      combineTranscript
        [{ text := "Hello &\n welcome", offset := JSNum.dec 0 1, duration := JSNum.dec 25000 1 },
         { text := "to  the show ", offset := JSNum.dec 25000 1, duration := JSNum.dec 15000 1 }]) :=
  ⟨by decide,
   combineTranscript_join_idempotent
     [{ text := "Hello &\n welcome", offset := JSNum.dec 0 1, duration := JSNum.dec 25000 1 },
      { text := "to  the show ", offset := JSNum.dec 25000 1, duration := JSNum.dec 15000 1 }]
     (by decide)⟩
